import Mathlib

/-!
Shallow embedding of the per-sample drum-voice engine in src/lib.rs.

The Rust code computes in f32; here the arithmetic is modelled exactly over ℚ
(and over ℝ for the peaking-equalizer coefficient derivation, which uses the
transcendental functions sin, cos and powf).  Casts `as usize` on nonnegative
floats truncate toward zero, modelled as Int.toNat of the floor.
-/

/-- The maximum size of a delay buffer for resonance (const MAX_DELAY, lib.rs). -/
def MAX_DELAY : ℕ := 4096

/-- enum ADSRState from lib.rs. -/
inductive ADSRState where
  | Idle
  | Attack
  | Hold
  | Decay
  | Sustain
  | Release
deriving DecidableEq

/-- struct ADSREnvelope from lib.rs, with f32 fields modelled as ℚ. -/
structure ADSREnvelope where
  state : ADSRState
  attack_time : ℚ
  decay_time : ℚ
  sustain_level : ℚ
  release_time : ℚ
  hold_time : ℚ
  current_level : ℚ
  sample_rate : ℚ
  hold_samples_left : ℕ
deriving DecidableEq

/-- ADSREnvelope::new. -/
def ADSREnvelope.new (sample_rate : ℚ) : ADSREnvelope where
  state := ADSRState.Idle
  attack_time := 1/100
  decay_time := 1/10
  sustain_level := 1/2
  release_time := 1/10
  hold_time := 0
  current_level := 0
  sample_rate := sample_rate
  hold_samples_left := 0

/-- ADSREnvelope::set_parameters. -/
def ADSREnvelope.set_parameters (e : ADSREnvelope)
    (attack decay sustain release hold : ℚ) : ADSREnvelope :=
  { e with attack_time := attack, decay_time := decay, sustain_level := sustain,
           release_time := release, hold_time := hold }

/-- ADSREnvelope::note_on.  The Rust cast `(hold_time * sample_rate) as usize`
truncates toward zero and saturates at 0, which on ℚ is Int.toNat of the floor. -/
def ADSREnvelope.note_on (e : ADSREnvelope) : ADSREnvelope :=
  { e with state := ADSRState.Attack, current_level := 0,
           hold_samples_left := (⌊e.hold_time * e.sample_rate⌋).toNat }

/-- ADSREnvelope::note_off. -/
def ADSREnvelope.note_off (e : ADSREnvelope) : ADSREnvelope :=
  if e.state = ADSRState.Idle then e else { e with state := ADSRState.Release }

/-- ADSREnvelope::process: returns the mutated envelope and the f32 return value. -/
def ADSREnvelope.process (e : ADSREnvelope) : ADSREnvelope × ℚ :=
  match e.state with
  | ADSRState.Idle => (e, 0)
  | ADSRState.Attack =>
      let lvl := e.current_level + 1 / max (e.attack_time * e.sample_rate) 1
      if 1 ≤ lvl then
        ({ e with current_level := 1,
                  state := if 0 < e.hold_time then ADSRState.Hold else ADSRState.Decay }, 1)
      else
        ({ e with current_level := lvl }, lvl)
  | ADSRState.Hold =>
      if 0 < e.hold_samples_left then
        ({ e with hold_samples_left := e.hold_samples_left - 1 }, 1)
      else
        ({ e with state := ADSRState.Decay }, 1)
  | ADSRState.Decay =>
      let lvl := e.current_level -
        (1 - e.sustain_level) / max (e.decay_time * e.sample_rate) 1
      if lvl ≤ e.sustain_level then
        ({ e with current_level := e.sustain_level, state := ADSRState.Sustain },
         e.sustain_level)
      else
        ({ e with current_level := lvl }, lvl)
  | ADSRState.Sustain => (e, e.sustain_level)
  | ADSRState.Release =>
      let lvl := e.current_level -
        e.current_level / max (e.release_time * e.sample_rate) 1
      if lvl ≤ 1/1000 then
        ({ e with current_level := 0, state := ADSRState.Idle }, 0)
      else
        ({ e with current_level := lvl }, lvl)

/-- ADSREnvelope::is_active. -/
def ADSREnvelope.is_active (e : ADSREnvelope) : Bool :=
  match e.state with
  | ADSRState.Idle => false
  | _ => true

/-- The envelope after n consecutive process calls. -/
def ADSREnvelope.advanceN (e : ADSREnvelope) : ℕ → ADSREnvelope
  | 0 => e
  | n + 1 => (e.advanceN n).process.1

/-- A call in the public interface of the envelope: note_on, note_off or a
process (advance) call. -/
inductive EnvCmd where
  | nOn
  | nOff
  | adv
deriving DecidableEq

/-- Run a sequence of interface calls; collect the value returned by each
process call. -/
def ADSREnvelope.runCmds : ADSREnvelope → List EnvCmd → ADSREnvelope × List ℚ
  | e, [] => (e, [])
  | e, EnvCmd.nOn :: cs => e.note_on.runCmds cs
  | e, EnvCmd.nOff :: cs => e.note_off.runCmds cs
  | e, EnvCmd.adv :: cs =>
      let p := e.process
      let r := p.1.runCmds cs
      (r.1, p.2 :: r.2)

/-- A concrete envelope sitting in the Release state, used to instantiate
theorems at a concrete input. -/
def envRelease : ADSREnvelope where
  state := ADSRState.Release
  attack_time := 0
  decay_time := 0
  sustain_level := 1/2
  release_time := 1
  hold_time := 0
  current_level := 1
  sample_rate := 1
  hold_samples_left := 0

/-- A concrete envelope in the Hold state with one hold sample left and a
fractional hold_time times sample_rate product. -/
def envHold1 : ADSREnvelope where
  state := ADSRState.Hold
  attack_time := 0
  decay_time := 1
  sustain_level := 0
  release_time := 1
  hold_time := 3/2
  current_level := 1
  sample_rate := 1
  hold_samples_left := 1

/-- A concrete idle envelope with hold_time of exactly two samples and an
instantaneous attack, used to trace the hold-phase sample count. -/
def envHoldCex : ADSREnvelope where
  state := ADSRState.Idle
  attack_time := 0
  decay_time := 1
  sustain_level := 0
  release_time := 1
  hold_time := 2
  current_level := 0
  sample_rate := 1
  hold_samples_left := 0

/-- struct OnePoleFilter from lib.rs. -/
structure OnePoleFilter where
  a0 : ℚ
  b1 : ℚ
  z1 : ℚ
deriving DecidableEq

/-- OnePoleFilter::new. -/
def OnePoleFilter.new : OnePoleFilter where
  a0 := 1
  b1 := 0
  z1 := 0

/-- OnePoleFilter::set_cutoff computes a0 and b1 from tan (pi times cutoff), a
transcendental function of the damping control; over ℚ the two coefficients it
would store are taken as inputs.  Like set_cutoff, this overwrites a0 and b1
and leaves the delay register z1 untouched. -/
def OnePoleFilter.set_coeffs (f : OnePoleFilter) (na0 nb1 : ℚ) : OnePoleFilter :=
  { f with a0 := na0, b1 := nb1 }

/-- OnePoleFilter::process. -/
def OnePoleFilter.process (f : OnePoleFilter) (input : ℚ) : OnePoleFilter × ℚ :=
  let output := f.a0 * input + f.a0 * f.z1
  ({ f with z1 := input - output * f.b1 }, output)

/-- OnePoleFilter::reset. -/
def OnePoleFilter.reset (f : OnePoleFilter) : OnePoleFilter :=
  { f with z1 := 0 }

/-- struct PeakEQ from lib.rs: the five stored normalized biquad coefficients
and the two-sample input/output history.  Polymorphic so that the engine state
can use ℚ while the transcendental coefficient derivation of configure is
stated over ℝ. -/
structure PeakEQ (α : Type) where
  a0 : α
  a1 : α
  a2 : α
  b1 : α
  b2 : α
  x1 : α
  x2 : α
  y1 : α
  y2 : α
deriving DecidableEq

/-- PeakEQ::new. -/
def PeakEQ.new {α : Type} [Field α] : PeakEQ α :=
  ⟨1, 0, 0, 0, 0, 0, 0, 0, 0⟩

/-- PeakEQ::process: direct-form-I difference equation, then history shift. -/
def PeakEQ.process {α : Type} [Field α] (f : PeakEQ α) (input : α) : PeakEQ α × α :=
  let output := f.a0 * input + f.a1 * f.x1 + f.a2 * f.x2 - f.b1 * f.y1 - f.b2 * f.y2
  ({ f with x2 := f.x1, x1 := input, y2 := f.y1, y1 := output }, output)

/-- PeakEQ::reset. -/
def PeakEQ.reset {α : Type} [Field α] (f : PeakEQ α) : PeakEQ α :=
  { f with x1 := 0, x2 := 0, y1 := 0, y2 := 0 }

/-- PeakEQ::configure over ℝ: the peaking biquad derivation from lib.rs with
the real sin, cos and the real power 10 ^ (gain / 40). -/
noncomputable def PeakEQ.configure (f : PeakEQ ℝ) (freq gain q sample_rate : ℝ) : PeakEQ ℝ :=
  let omega := 2 * Real.pi * freq / sample_rate
  let alpha := Real.sin omega / (2 * q)
  let a := (10 : ℝ) ^ (gain / 40)
  let b0 := 1 + alpha * a
  let b1 := -2 * Real.cos omega
  let b2 := 1 - alpha * a
  let a0 := 1 + alpha / a
  let a1 := -2 * Real.cos omega
  let a2 := 1 - alpha / a
  { f with a0 := b0 / a0, a1 := b1 / a0, a2 := b2 / a0, b1 := a1 / a0, b2 := a2 / a0 }

/-- The five normalized coefficients PeakEQ::configure stores.  In the ℚ
engine model they are supplied as per-sample inputs, since configure computes
them through transcendental functions of the smoothed parameters. -/
structure EQCoeffs where
  a0 : ℚ
  a1 : ℚ
  a2 : ℚ
  b1 : ℚ
  b2 : ℚ
deriving DecidableEq

/-- Overwrite the five coefficients, as PeakEQ::configure does; the histories
are untouched. -/
def PeakEQ.set_coeffs (f : PeakEQ ℚ) (c : EQCoeffs) : PeakEQ ℚ :=
  { f with a0 := c.a0, a1 := c.a1, a2 := c.a2, b1 := c.b1, b2 := c.b2 }

/-- The algorithmic state of struct DrumSynth (lib.rs), omitting only the
host-facing parameter store and the editor handle.  The resonance buffer
(a Vec<f32> of length MAX_DELAY) is modelled as a function on ℕ; indices at or
above MAX_DELAY are never read or written because every access is reduced
modulo MAX_DELAY. -/
structure DrumSynthState where
  sample_rate : ℚ
  transient_envelope : ADSREnvelope
  transient_eq : PeakEQ ℚ
  resonance_buffer : ℕ → ℚ
  resonance_write_pos : ℕ
  resonance_read_pos : ℕ
  resonance_lowpass : OnePoleFilter
  resonance_eq : PeakEQ ℚ
  noise_envelope : ADSREnvelope
  snare_eq : PeakEQ ℚ
  midi_note_id : ℕ
  midi_note_freq : ℚ
  is_playing : Bool

/-- impl Default for DrumSynth. -/
def DrumSynthState.default0 : DrumSynthState where
  sample_rate := 44100
  transient_envelope := ADSREnvelope.new 44100
  transient_eq := PeakEQ.new
  resonance_buffer := fun _ => 0
  resonance_write_pos := 0
  resonance_read_pos := 0
  resonance_lowpass := OnePoleFilter.new
  resonance_eq := PeakEQ.new
  noise_envelope := ADSREnvelope.new 44100
  snare_eq := PeakEQ.new
  midi_note_id := 0
  midi_note_freq := 1
  is_playing := false

/-- DrumSynth::reset (the Plugin trait reset in lib.rs): note tracking
cleared, both envelope states forced to Idle, the four filter histories
zeroed, the resonance buffer cleared and both cursors set to 0. -/
def DrumSynthState.reset (s : DrumSynthState) : DrumSynthState :=
  { s with
    midi_note_id := 0
    midi_note_freq := 1
    is_playing := false
    transient_envelope := { s.transient_envelope with state := ADSRState.Idle }
    noise_envelope := { s.noise_envelope with state := ADSRState.Idle }
    transient_eq := s.transient_eq.reset
    resonance_eq := s.resonance_eq.reset
    resonance_lowpass := s.resonance_lowpass.reset
    snare_eq := s.snare_eq.reset
    resonance_buffer := fun _ => 0
    resonance_write_pos := 0
    resonance_read_pos := 0 }

/-- The per-sample control values read inside DrumSynth::process_resonance:
the smoothed delay-length parameter cast to usize, the damping-filter
coefficients produced by set_cutoff (1 - damping) lowpass, the feedback gain,
the resonance EQ coefficients and the resonance level. -/
structure ResonanceInputs where
  delay_samples : ℕ
  lp_a0 : ℚ
  lp_b1 : ℚ
  feedback : ℚ
  eq_coeffs : EQCoeffs
  level : ℚ
deriving DecidableEq

/-- The values produced by one DrumSynth::process_resonance call: the updated
engine state, the sample read at the delayed tap, the sample written into the
buffer, and the EQ-shaped leveled output returned to the caller. -/
structure ResonanceResult where
  state : DrumSynthState
  delayed_sample : ℚ
  resonance_input : ℚ
  output : ℚ

/-- DrumSynth::process_resonance: clamp the delay, derive the read cursor,
read (before writing), damp the feedback through the one-pole lowpass, mix
with the two excitation inputs, write at the write cursor, advance the write
cursor modulo MAX_DELAY, then EQ and level the written sample. -/
def DrumSynthState.process_resonance (s : DrumSynthState)
    (transient_output snare_output : ℚ) (ins : ResonanceInputs) : ResonanceResult :=
  let delay_samples := min ins.delay_samples (MAX_DELAY - 1)
  let read_pos := (s.resonance_write_pos + MAX_DELAY - delay_samples) % MAX_DELAY
  let delayed_sample := s.resonance_buffer read_pos
  let lp := s.resonance_lowpass.set_coeffs ins.lp_a0 ins.lp_b1
  let filtered := lp.process delayed_sample
  let resonance_input := transient_output + snare_output + filtered.2 * ins.feedback
  let buf := Function.update s.resonance_buffer s.resonance_write_pos resonance_input
  let wpos := (s.resonance_write_pos + 1) % MAX_DELAY
  let eq := s.resonance_eq.set_coeffs ins.eq_coeffs
  let eqr := eq.process (resonance_input * ins.level)
  let s1 : DrumSynthState :=
    { s with resonance_buffer := buf, resonance_write_pos := wpos,
             resonance_read_pos := read_pos, resonance_lowpass := filtered.1,
             resonance_eq := eqr.1 }
  { state := s1, delayed_sample := delayed_sample,
    resonance_input := resonance_input, output := eqr.2 }

/-- Per-step input of the resonator: the two excitation samples and the
per-sample control values. -/
structure ResStepIns where
  transient_output : ℚ
  snare_output : ℚ
  ctrl : ResonanceInputs

/-- The engine state after n process_resonance steps driven by the input
stream ins. -/
def resRun (s : DrumSynthState) (ins : ℕ → ResStepIns) : ℕ → DrumSynthState
  | 0 => s
  | n + 1 =>
      ((resRun s ins n).process_resonance (ins n).transient_output
        (ins n).snare_output (ins n).ctrl).state

/-- The sample read from the delay buffer during step n (the read happens
before the write of that step). -/
def readAt (s : DrumSynthState) (ins : ℕ → ResStepIns) (n : ℕ) : ℚ :=
  ((resRun s ins n).process_resonance (ins n).transient_output
    (ins n).snare_output (ins n).ctrl).delayed_sample

/-- The sample written into the delay buffer during step n. -/
def writtenAt (s : DrumSynthState) (ins : ℕ → ResStepIns) (n : ℕ) : ℚ :=
  ((resRun s ins n).process_resonance (ins n).transient_output
    (ins n).snare_output (ins n).ctrl).resonance_input

/-- The per-sample values read inside the audio loop of DrumSynth::process:
the two noise samples, the smoothed levels and EQ coefficients of the impact
and snare layers, the resonator control values and the smoothed master gain in
decibels. -/
structure SampleInputs where
  noise_t : ℚ
  noise_s : ℚ
  impact_eq_coeffs : EQCoeffs
  impact_level : ℚ
  snare_eq_coeffs : EQCoeffs
  snare_level : ℚ
  res : ResonanceInputs
  gain_db : ℚ

/-- What one sample of DrumSynth::process produces: the updated engine state,
the mixed output value, and the frame of per-channel written samples. -/
structure SampleResult where
  state : DrumSynthState
  output : ℚ
  frame : List ℚ

/-- DrumSynth::process_transient: noise times envelope times level, through
the transient EQ (configured from the per-sample values first). -/
def DrumSynthState.process_transient (s : DrumSynthState) (ins : SampleInputs) :
    DrumSynthState × ℚ :=
  let envelope := s.transient_envelope.process
  let eq := s.transient_eq.set_coeffs ins.impact_eq_coeffs
  let output := ins.noise_t * envelope.2 * ins.impact_level
  let r := eq.process output
  ({ s with transient_envelope := envelope.1, transient_eq := r.1 }, r.2)

/-- DrumSynth::process_snare_input: noise times envelope times level, through
the snare EQ. -/
def DrumSynthState.process_snare_input (s : DrumSynthState) (ins : SampleInputs) :
    DrumSynthState × ℚ :=
  let envelope := s.noise_envelope.process
  let eq := s.snare_eq.set_coeffs ins.snare_eq_coeffs
  let output := ins.noise_s * envelope.2 * ins.snare_level
  let r := eq.process output
  ({ s with noise_envelope := envelope.1, snare_eq := r.1 }, r.2)

/-- One audio sample of the loop body of DrumSynth::process, after the MIDI
events up to this sample index have been drained: run the transient layer,
the snare layer and the resonator (the snare feeds the resonator), mix
transient output with resonance output, scale by the decibel-to-linear master
gain (util::db_to_gain_fast, an external library function abstracted as
dbToGain), write the same value to every output channel of the frame, then
recompute is_playing from the two envelopes. -/
def DrumSynthState.processSample (s : DrumSynthState) (ins : SampleInputs)
    (dbToGain : ℚ → ℚ) (channels : ℕ) : SampleResult :=
  let t := s.process_transient ins
  let sn := t.1.process_snare_input ins
  let r := sn.1.process_resonance t.2 sn.2 ins.res
  let output := (t.2 + r.output) * dbToGain ins.gain_db
  let s2 := { r.state with is_playing :=
      r.state.transient_envelope.is_active || r.state.noise_envelope.is_active }
  { state := s2, output := output, frame := List.replicate channels output }

/-- Concrete resonator control inputs with delay length 1. -/
def insDelay1 : ResonanceInputs where
  delay_samples := 1
  lp_a0 := 1/2
  lp_b1 := 0
  feedback := -(7/10)
  eq_coeffs := ⟨1, 0, 0, 0, 0⟩
  level := 1

/-- The same control inputs with delay length 0. -/
def insDelay0 : ResonanceInputs :=
  { insDelay1 with delay_samples := 0 }

/-- A constant excitation stream with delay length 1. -/
def stream1 : ℕ → ResStepIns := fun _ => ⟨1, 0, insDelay1⟩

/-- A constant excitation stream with delay length 0. -/
def stream0 : ℕ → ResStepIns := fun _ => ⟨1, 0, insDelay0⟩

/-- Feed a list of input samples through a peaking EQ one at a time,
collecting the outputs. -/
def PeakEQ.runList {α : Type} [Field α] (f : PeakEQ α) : List α → PeakEQ α × List α
  | [] => (f, [])
  | x :: xs =>
      let p := f.process x
      let r := p.1.runList xs
      (r.1, p.2 :: r.2)

/-- All four history registers of a peaking EQ are zero. -/
def eqHistZero (f : PeakEQ ℚ) : Prop :=
  f.x1 = 0 ∧ f.x2 = 0 ∧ f.y1 = 0 ∧ f.y2 = 0

/-- Both cursors of the resonator are strictly below the buffer capacity. -/
def cursorsInv (s : DrumSynthState) : Prop :=
  s.resonance_write_pos < MAX_DELAY ∧ s.resonance_read_pos < MAX_DELAY

instance (s : DrumSynthState) : Decidable (cursorsInv s) := by
  unfold cursorsInv; infer_instance

/-- Valid timing parameters (sample rate positive, durations nonnegative,
sustain level in the unit interval) together with the current-level invariant. -/
def validEnv (e : ADSREnvelope) : Prop :=
  0 < e.sample_rate ∧ 0 ≤ e.attack_time ∧ 0 ≤ e.decay_time ∧
  0 ≤ e.release_time ∧ 0 ≤ e.hold_time ∧
  0 ≤ e.sustain_level ∧ e.sustain_level ≤ 1 ∧
  0 ≤ e.current_level ∧ e.current_level ≤ 1

instance (e : ADSREnvelope) : Decidable (validEnv e) := by
  unfold validEnv; infer_instance

lemma validEnv_process {e : ADSREnvelope} (h : validEnv e) :
    validEnv e.process.1 ∧ 0 ≤ e.process.2 ∧ e.process.2 ≤ 1 := by
  obtain ⟨hsr, ha, hd, hr, hh, hs0, hs1, hl0, hl1⟩ := h
  cases hst : e.state
  case Idle =>
    simp only [ADSREnvelope.process, hst]
    exact ⟨⟨hsr, ha, hd, hr, hh, hs0, hs1, hl0, hl1⟩, le_refl 0, zero_le_one⟩
  case Attack =>
    have hmax : (1 : ℚ) ≤ max (e.attack_time * e.sample_rate) 1 := le_max_right _ _
    have hpos : (0 : ℚ) < max (e.attack_time * e.sample_rate) 1 := lt_of_lt_of_le one_pos hmax
    have hinc : (0 : ℚ) < 1 / max (e.attack_time * e.sample_rate) 1 := by positivity
    simp only [ADSREnvelope.process, hst]
    by_cases hc : 1 ≤ e.current_level + 1 / max (e.attack_time * e.sample_rate) 1
    · rw [if_pos hc]
      exact ⟨⟨hsr, ha, hd, hr, hh, hs0, hs1, zero_le_one, le_refl 1⟩, zero_le_one, le_refl 1⟩
    · rw [if_neg hc]
      push_neg at hc
      constructor
      · exact ⟨hsr, ha, hd, hr, hh, hs0, hs1, by linarith, le_of_lt hc⟩
      · exact ⟨by linarith, le_of_lt hc⟩
  case Hold =>
    simp only [ADSREnvelope.process, hst]
    split_ifs with hc
    · exact ⟨⟨hsr, ha, hd, hr, hh, hs0, hs1, hl0, hl1⟩, zero_le_one, le_refl 1⟩
    · exact ⟨⟨hsr, ha, hd, hr, hh, hs0, hs1, hl0, hl1⟩, zero_le_one, le_refl 1⟩
  case Decay =>
    have hmax : (1 : ℚ) ≤ max (e.decay_time * e.sample_rate) 1 := le_max_right _ _
    have hpos : (0 : ℚ) < max (e.decay_time * e.sample_rate) 1 := lt_of_lt_of_le one_pos hmax
    have hdec : (0 : ℚ) ≤ (1 - e.sustain_level) / max (e.decay_time * e.sample_rate) 1 := by
      apply div_nonneg (by linarith) (le_of_lt hpos)
    simp only [ADSREnvelope.process, hst]
    split_ifs with hc
    · exact ⟨⟨hsr, ha, hd, hr, hh, hs0, hs1, hs0, hs1⟩, hs0, hs1⟩
    · push_neg at hc
      constructor
      · exact ⟨hsr, ha, hd, hr, hh, hs0, hs1, by linarith, by linarith⟩
      · exact ⟨by linarith, by linarith⟩
  case Sustain =>
    simp only [ADSREnvelope.process, hst]
    exact ⟨⟨hsr, ha, hd, hr, hh, hs0, hs1, hl0, hl1⟩, hs0, hs1⟩
  case Release =>
    have hmax : (1 : ℚ) ≤ max (e.release_time * e.sample_rate) 1 := le_max_right _ _
    have hpos : (0 : ℚ) < max (e.release_time * e.sample_rate) 1 := lt_of_lt_of_le one_pos hmax
    have hq : e.current_level / max (e.release_time * e.sample_rate) 1 ≤ e.current_level :=
      div_le_self hl0 hmax
    have hq0 : 0 ≤ e.current_level / max (e.release_time * e.sample_rate) 1 :=
      div_nonneg hl0 (le_of_lt hpos)
    simp only [ADSREnvelope.process, hst]
    split_ifs with hc
    · exact ⟨⟨hsr, ha, hd, hr, hh, hs0, hs1, le_refl 0, zero_le_one⟩, le_refl 0, zero_le_one⟩
    · push_neg at hc
      constructor
      · exact ⟨hsr, ha, hd, hr, hh, hs0, hs1, by linarith, by linarith⟩
      · exact ⟨by linarith, by linarith⟩

lemma validEnv_note_on {e : ADSREnvelope} (h : validEnv e) : validEnv e.note_on := by
  obtain ⟨hsr, ha, hd, hr, hh, hs0, hs1, _, _⟩ := h
  exact ⟨hsr, ha, hd, hr, hh, hs0, hs1, le_refl 0, zero_le_one⟩

lemma validEnv_note_off {e : ADSREnvelope} (h : validEnv e) : validEnv e.note_off := by
  obtain ⟨hsr, ha, hd, hr, hh, hs0, hs1, hl0, hl1⟩ := h
  unfold ADSREnvelope.note_off
  split_ifs
  · exact ⟨hsr, ha, hd, hr, hh, hs0, hs1, hl0, hl1⟩
  · exact ⟨hsr, ha, hd, hr, hh, hs0, hs1, hl0, hl1⟩

lemma runCmds_valid {e : ADSREnvelope} (cmds : List EnvCmd) (h : validEnv e) :
    validEnv (e.runCmds cmds).1 ∧ ∀ o ∈ (e.runCmds cmds).2, 0 ≤ o ∧ o ≤ 1 := by
  induction cmds generalizing e with
  | nil => exact ⟨h, by simp [ADSREnvelope.runCmds]⟩
  | cons c cs ih =>
    cases c
    case nOn =>
      have := ih (validEnv_note_on h)
      simpa [ADSREnvelope.runCmds] using this
    case nOff =>
      have := ih (validEnv_note_off h)
      simpa [ADSREnvelope.runCmds] using this
    case adv =>
      obtain ⟨hv, ho0, ho1⟩ := validEnv_process h
      obtain ⟨h1, h2⟩ := ih hv
      refine ⟨h1, ?_⟩
      intro o ho
      simp only [ADSREnvelope.runCmds, List.mem_cons] at ho
      rcases ho with rfl | ho
      · exact ⟨ho0, ho1⟩
      · exact h2 o ho

/-- Claim C1: for every sample rate > 0, every valid timing parameter set
(durations nonnegative, sustain level in the unit interval) and every sequence
of note_on / note_off / advance calls, each value returned by
ADSREnvelope::process lies in the unit interval, and the stored current level
stays in the unit interval. -/
theorem C1_process_output_and_level_in_unit_interval
    (e : ADSREnvelope) (cmds : List EnvCmd)
    (hsr : 0 < e.sample_rate) (ha : 0 ≤ e.attack_time) (hd : 0 ≤ e.decay_time)
    (hr : 0 ≤ e.release_time) (hh : 0 ≤ e.hold_time)
    (hs0 : 0 ≤ e.sustain_level) (hs1 : e.sustain_level ≤ 1)
    (hl0 : 0 ≤ e.current_level) (hl1 : e.current_level ≤ 1) :
    (∀ o ∈ (e.runCmds cmds).2, 0 ≤ o ∧ o ≤ 1) ∧
    0 ≤ (e.runCmds cmds).1.current_level ∧ (e.runCmds cmds).1.current_level ≤ 1 := by
  have h := runCmds_valid (e := e) cmds ⟨hsr, ha, hd, hr, hh, hs0, hs1, hl0, hl1⟩
  exact ⟨h.2, h.1.2.2.2.2.2.2.2⟩

/-- Witness for C1 at a concrete envelope and call sequence. -/
theorem C1_witness :
    0 ≤ ((ADSREnvelope.new 2).runCmds
          [EnvCmd.nOn, EnvCmd.adv, EnvCmd.adv, EnvCmd.nOff, EnvCmd.adv]).1.current_level ∧
    ((ADSREnvelope.new 2).runCmds
          [EnvCmd.nOn, EnvCmd.adv, EnvCmd.adv, EnvCmd.nOff, EnvCmd.adv]).1.current_level ≤ 1 := by
  have h := C1_process_output_and_level_in_unit_interval (ADSREnvelope.new 2)
    [EnvCmd.nOn, EnvCmd.adv, EnvCmd.adv, EnvCmd.nOff, EnvCmd.adv]
    (by norm_num [ADSREnvelope.new]) (by norm_num [ADSREnvelope.new])
    (by norm_num [ADSREnvelope.new]) (by norm_num [ADSREnvelope.new])
    (by norm_num [ADSREnvelope.new]) (by norm_num [ADSREnvelope.new])
    (by norm_num [ADSREnvelope.new]) (by norm_num [ADSREnvelope.new])
    (by norm_num [ADSREnvelope.new])
  exact h.2

lemma release_run (e : ADSREnvelope) (hst : e.state = ADSRState.Release) :
    ∀ k : ℕ,
      ((e.advanceN k).state = ADSRState.Release ∧
       (e.advanceN k).current_level =
         e.current_level * (1 - 1 / max (e.release_time * e.sample_rate) 1) ^ k ∧
       (e.advanceN k).release_time = e.release_time ∧
       (e.advanceN k).sample_rate = e.sample_rate) ∨
      ((e.advanceN k).state = ADSRState.Idle ∧ (e.advanceN k).current_level = 0) := by
  intro k
  induction k with
  | zero =>
    left
    exact ⟨hst, by simp [ADSREnvelope.advanceN], rfl, rfl⟩
  | succ k ih =>
    rcases ih with ⟨h1, h2, h3, h4⟩ | ⟨h1, h2⟩
    · show _ ∨ _
      simp only [ADSREnvelope.advanceN, ADSREnvelope.process, h1, h2, h3, h4]
      split_ifs with hc
      · right
        exact ⟨rfl, rfl⟩
      · left
        refine ⟨rfl, ?_, rfl, rfl⟩
      
        show e.current_level * (1 - 1 / max (e.release_time * e.sample_rate) 1) ^ k -
            e.current_level * (1 - 1 / max (e.release_time * e.sample_rate) 1) ^ k /
              max (e.release_time * e.sample_rate) 1 =
          e.current_level * (1 - 1 / max (e.release_time * e.sample_rate) 1) ^ (k + 1)
        ring
    · have hstep : e.advanceN (k + 1) = e.advanceN k := by
        simp only [ADSREnvelope.advanceN, ADSREnvelope.process, h1]
      right
      rw [hstep]
      exact ⟨h1, h2⟩

/-- Claim C3: for every sustain level in the unit interval and every positive
release time, once the envelope is in Release, repeated process calls reach the
Idle state with current level exactly 0 after finitely many samples (the 0.001
epsilon floor guarantees termination rather than asymptotic decay). -/
theorem C3_release_reaches_idle_with_level_zero (e : ADSREnvelope)
    (hst : e.state = ADSRState.Release)
    (hsr : 0 < e.sample_rate) (hrt : 0 < e.release_time)
    (hs0 : 0 ≤ e.sustain_level) (hs1 : e.sustain_level ≤ 1)
    (hl0 : 0 ≤ e.current_level) (hl1 : e.current_level ≤ 1) :
    ∃ N : ℕ, (e.advanceN N).state = ADSRState.Idle ∧ (e.advanceN N).current_level = 0 := by
  have hm1 : (1 : ℚ) ≤ max (e.release_time * e.sample_rate) 1 := le_max_right _ _
  have hmpos : (0 : ℚ) < max (e.release_time * e.sample_rate) 1 :=
    lt_of_lt_of_le one_pos hm1
  have hrq : 1 / max (e.release_time * e.sample_rate) 1 ≤ 1 := by
    rw [div_le_one hmpos]; exact hm1
  have hrqpos : 0 < 1 / max (e.release_time * e.sample_rate) 1 := by positivity
  have hr0 : (0 : ℚ) ≤ 1 - 1 / max (e.release_time * e.sample_rate) 1 := by linarith
  have hr1 : 1 - 1 / max (e.release_time * e.sample_rate) 1 < 1 := by linarith
  obtain ⟨n, hn⟩ :=
    exists_pow_lt_of_lt_one (x := (1 : ℚ)/1000) (y := 1 - 1 / max (e.release_time * e.sample_rate) 1)
      (by norm_num) hr1
  rcases release_run e hst n with ⟨h1, h2, h3, h4⟩ | ⟨h1, h2⟩
  · refine ⟨n + 1, ?_⟩
    have hc0 : 0 ≤ (e.advanceN n).current_level := by
      rw [h2]; exact mul_nonneg hl0 (pow_nonneg hr0 n)
    have hcb : (e.advanceN n).current_level ≤
        (1 - 1 / max (e.release_time * e.sample_rate) 1) ^ n := by
      rw [h2]; exact mul_le_of_le_one_left (pow_nonneg hr0 n) hl1
    have hclt : (e.advanceN n).current_level < 1/1000 := lt_of_le_of_lt hcb hn
    have hcond : (e.advanceN n).current_level -
        (e.advanceN n).current_level / max (e.release_time * e.sample_rate) 1 ≤ 1/1000 := by
      have hmul : (e.advanceN n).current_level *
          (1 - 1 / max (e.release_time * e.sample_rate) 1) ≤ (e.advanceN n).current_level :=
        mul_le_of_le_one_right hc0 (le_of_lt hr1)
      have heq : (e.advanceN n).current_level -
          (e.advanceN n).current_level / max (e.release_time * e.sample_rate) 1 =
          (e.advanceN n).current_level *
            (1 - 1 / max (e.release_time * e.sample_rate) 1) := by ring
      rw [heq]
      linarith
    simp only [ADSREnvelope.advanceN, ADSREnvelope.process, h1, h3, h4]
    rw [if_pos hcond]
    exact ⟨rfl, rfl⟩
  · exact ⟨n, h1, h2⟩

/-- Witness for C3 at a concrete Release-state envelope. -/
theorem C3_witness :
    ∃ N : ℕ, (envRelease.advanceN N).state = ADSRState.Idle ∧
      (envRelease.advanceN N).current_level = 0 :=
  C3_release_reaches_idle_with_level_zero envRelease rfl
    (by norm_num [envRelease]) (by norm_num [envRelease]) (by norm_num [envRelease])
    (by norm_num [envRelease]) (by norm_num [envRelease]) (by norm_num [envRelease])

lemma hold_run {e : ADSREnvelope} {n : ℕ} (hst : e.state = ADSRState.Hold)
    (hn : e.hold_samples_left = n) :
    ∀ k, k ≤ n → (e.advanceN k).state = ADSRState.Hold ∧
      (e.advanceN k).hold_samples_left = n - k := by
  intro k
  induction k with
  | zero => exact fun _ => ⟨hst, by simpa using hn⟩
  | succ k ih =>
    intro hk
    obtain ⟨h1, h2⟩ := ih (Nat.le_of_succ_le hk)
    have hpos : 0 < (e.advanceN k).hold_samples_left := by
      rw [h2]; exact Nat.sub_pos_of_lt (Nat.lt_of_succ_le hk)
    constructor
    · show (e.advanceN k).process.1.state = ADSRState.Hold
      simp only [ADSREnvelope.process, h1]
      rw [if_pos hpos]
    · show (e.advanceN k).process.1.hold_samples_left = n - (k + 1)
      simp only [ADSREnvelope.process, h1]
      rw [if_pos hpos]
      show (e.advanceN k).hold_samples_left - 1 = n - (k + 1)
      rw [h2]
      omega

/-- Claim C6 (amended): note_on loads hold_samples_left by truncating
hold_time times sample_rate toward zero (not rounding), and an envelope in the
Hold state with n hold samples left returns the value 1 on exactly n + 1
consecutive process calls made in the Hold state before the state becomes
Decay. -/
theorem C6_note_on_truncates_and_hold_emits_succ_samples
    (e : ADSREnvelope) (n : ℕ)
    (hst : e.state = ADSRState.Hold) (hn : e.hold_samples_left = n) :
    e.note_on.hold_samples_left = (⌊e.hold_time * e.sample_rate⌋).toNat ∧
    (∀ k, k ≤ n → (e.advanceN k).state = ADSRState.Hold ∧ (e.advanceN k).process.2 = 1) ∧
    (e.advanceN (n + 1)).state = ADSRState.Decay := by
  refine ⟨rfl, ?_, ?_⟩
  · intro k hk
    obtain ⟨h1, h2⟩ := hold_run hst hn k hk
    refine ⟨h1, ?_⟩
    simp only [ADSREnvelope.process, h1]
    split_ifs <;> rfl
  · obtain ⟨h1, h2⟩ := hold_run hst hn n (le_refl n)
    have hz : ¬ 0 < (e.advanceN n).hold_samples_left := by rw [h2]; simp
    show (e.advanceN n).process.1.state = ADSRState.Decay
    simp only [ADSREnvelope.process, h1]
    rw [if_neg hz]

/-- Witness for the amended C6 at a concrete Hold-state envelope. -/
theorem C6_witness :
    envHold1.note_on.hold_samples_left = (⌊envHold1.hold_time * envHold1.sample_rate⌋).toNat ∧
    (envHold1.advanceN 2).state = ADSRState.Decay := by
  have h := C6_note_on_truncates_and_hold_emits_succ_samples envHold1 1 rfl rfl
  exact ⟨h.1, h.2.2⟩

/-- Counterexample to C6 as stated.  First part: with hold_time 3/2 and sample
rate 1, note_on loads 1 hold sample while rounding would give 2.  Second part:
with hold_time exactly 2 samples, after note_on and the attack sample, three
process calls (not two) are made in the Hold state, each returning 1, before
the state becomes Decay. -/
theorem C6_counterexample :
    (envHold1.note_on.hold_samples_left = 1 ∧
     round (envHold1.hold_time * envHold1.sample_rate) = (2 : ℤ)) ∧
    ((envHoldCex.note_on.advanceN 1).state = ADSRState.Hold ∧
     (envHoldCex.note_on.advanceN 2).state = ADSRState.Hold ∧
     (envHoldCex.note_on.advanceN 3).state = ADSRState.Hold ∧
     (envHoldCex.note_on.advanceN 3).process.2 = 1 ∧
     (envHoldCex.note_on.advanceN 4).state = ADSRState.Decay ∧
     round (envHoldCex.hold_time * envHoldCex.sample_rate) = (2 : ℤ)) := by
  refine ⟨⟨?_, ?_⟩, ?_, ?_, ?_, ?_, ?_, ?_⟩ <;>
    norm_num [envHold1, envHoldCex, round_eq, ADSREnvelope.note_on, ADSREnvelope.advanceN,
      ADSREnvelope.process]

lemma idle_advanceN {e : ADSREnvelope} (h : e.state = ADSRState.Idle) (n : ℕ) :
    e.advanceN n = e := by
  induction n with
  | zero => rfl
  | succ n ih =>
    show (e.advanceN n).process.1 = e
    rw [ih]
    simp only [ADSREnvelope.process, h]

lemma idle_process_out {e : ADSREnvelope} (h : e.state = ADSRState.Idle) :
    e.process.2 = 0 := by
  simp only [ADSREnvelope.process, h]

/-- Claim C4: after DrumSynth::reset, in any state: is_playing is false, both
envelopes are Idle, the history registers of all four filters are zero, every
slot of the resonance buffer is zero, and both cursors are zero. -/
theorem C4_reset_clears_engine (s : DrumSynthState) :
    s.reset.is_playing = false ∧
    s.reset.transient_envelope.state = ADSRState.Idle ∧
    s.reset.noise_envelope.state = ADSRState.Idle ∧
    eqHistZero s.reset.transient_eq ∧
    eqHistZero s.reset.resonance_eq ∧
    eqHistZero s.reset.snare_eq ∧
    s.reset.resonance_lowpass.z1 = 0 ∧
    (∀ i : ℕ, s.reset.resonance_buffer i = 0) ∧
    s.reset.resonance_write_pos = 0 ∧
    s.reset.resonance_read_pos = 0 :=
  ⟨rfl, rfl, rfl, ⟨rfl, rfl, rfl, rfl⟩, ⟨rfl, rfl, rfl, rfl⟩, ⟨rfl, rfl, rfl, rfl⟩,
   rfl, fun _ => rfl, rfl, rfl⟩

/-- Claim C9: DrumSynth::reset leaves both envelopes' current_level fields
unchanged (only the state field is forced to Idle); this is unobservable
because the Idle arm of process returns 0 without reading the level, so after
reset every process call on either envelope returns 0, and a note_on resets
the level to 0 before it is next used. -/
theorem C9_reset_keeps_levels_and_idle_outputs_zero (s : DrumSynthState) (n : ℕ) :
    s.reset.transient_envelope.current_level = s.transient_envelope.current_level ∧
    s.reset.noise_envelope.current_level = s.noise_envelope.current_level ∧
    (s.reset.transient_envelope.advanceN n).process.2 = 0 ∧
    (s.reset.noise_envelope.advanceN n).process.2 = 0 ∧
    (∀ e : ADSREnvelope, e.note_on.current_level = 0) := by
  refine ⟨rfl, rfl, ?_, ?_, fun _ => rfl⟩
  · rw [idle_advanceN (e := s.reset.transient_envelope) rfl n]
    exact idle_process_out rfl
  · rw [idle_advanceN (e := s.reset.noise_envelope) rfl n]
    exact idle_process_out rfl

lemma resRun_wpos (s : DrumSynthState) (ins : ℕ → ResStepIns)
    (hw : s.resonance_write_pos < MAX_DELAY) :
    ∀ n, (resRun s ins n).resonance_write_pos =
      (s.resonance_write_pos + n) % MAX_DELAY := by
  intro n
  induction n with
  | zero => simpa [resRun] using (Nat.mod_eq_of_lt hw).symm
  | succ n ih =>
    have hstep : (resRun s ins (n + 1)).resonance_write_pos =
        ((resRun s ins n).resonance_write_pos + 1) % MAX_DELAY := rfl
    rw [hstep, ih, Nat.mod_add_mod, Nat.add_assoc]

lemma resRun_buf (s : DrumSynthState) (ins : ℕ → ResStepIns)
    (hw : s.resonance_write_pos < MAX_DELAY) :
    ∀ {j n : ℕ}, j < n → n ≤ j + MAX_DELAY →
      (resRun s ins n).resonance_buffer ((s.resonance_write_pos + j) % MAX_DELAY) =
        writtenAt s ins j := by
  intro j n
  induction n with
  | zero => omega
  | succ n ih =>
    intro hj hn
    have hstep : (resRun s ins (n + 1)).resonance_buffer =
        Function.update (resRun s ins n).resonance_buffer
          (resRun s ins n).resonance_write_pos (writtenAt s ins n) := rfl
    rcases Nat.lt_or_ge j n with hlt | hge
    · have hne : (s.resonance_write_pos + j) % MAX_DELAY ≠
          (resRun s ins n).resonance_write_pos := by
        rw [resRun_wpos s ins hw n]
        intro hEq
        have hmod : j ≡ n [MOD MAX_DELAY] :=
          Nat.ModEq.add_left_cancel' s.resonance_write_pos hEq
        have hdvd : MAX_DELAY ∣ n - j := (Nat.modEq_iff_dvd' (le_of_lt hlt)).1 hmod
        have hle := Nat.le_of_dvd (by omega) hdvd
        omega
      rw [hstep, Function.update_noteq hne]
      exact ih hlt (by omega)
    · have hj' : j = n := by omega
      subst hj'
      rw [hstep, resRun_wpos s ins hw j, Function.update_same]

/-- Claim C2: with a constant delay length d between 1 and MAX_DELAY - 1, the
sample read from the resonator delay buffer at step n (read before that step
writes) is exactly the sample written at step n - d, for every excitation and
control stream; the impulse written at a step therefore reappears at the read
tap d samples later, and only the damping filter and feedback gain are applied
to it afterwards. -/
theorem C2_read_equals_write_d_steps_earlier (s : DrumSynthState)
    (ins : ℕ → ResStepIns) (d : ℕ)
    (hw : s.resonance_write_pos < MAX_DELAY)
    (hd1 : 1 ≤ d) (hd2 : d ≤ MAX_DELAY - 1)
    (hins : ∀ k, (ins k).ctrl.delay_samples = d)
    (n : ℕ) (hdn : d ≤ n) :
    readAt s ins n = writtenAt s ins (n - d) := by
  have hclamp : min (ins n).ctrl.delay_samples (MAX_DELAY - 1) = d := by
    rw [hins n]
    exact min_eq_left_iff.2 hd2
  have hread : readAt s ins n =
      (resRun s ins n).resonance_buffer
        (((resRun s ins n).resonance_write_pos + MAX_DELAY -
          min (ins n).ctrl.delay_samples (MAX_DELAY - 1)) % MAX_DELAY) := rfl
  rw [hread, hclamp, resRun_wpos s ins hw n]
  have hM : MAX_DELAY = 4096 := rfl
  have hidx : ((s.resonance_write_pos + n) % MAX_DELAY + MAX_DELAY - d) % MAX_DELAY =
      (s.resonance_write_pos + (n - d)) % MAX_DELAY := by
    rw [hM] at hd2 ⊢
    omega
  rw [hidx]
  exact resRun_buf s ins hw (by omega) (by rw [hM] at hd2 ⊢; omega)

/-- Witness for C2 with delay length 1 at step 1 from the default engine
state. -/
theorem C2_witness :
    readAt DrumSynthState.default0 stream1 1 =
      writtenAt DrumSynthState.default0 stream1 0 :=
  C2_read_equals_write_d_steps_earlier DrumSynthState.default0 stream1 1
    (by decide) (le_refl 1) (by decide) (fun _ => rfl) 1 (le_refl 1)

/-- Claim C10: when the clamped delay length is 0 the computed read cursor
equals the write cursor, the read still precedes the write of the step, and
the sample fed back at step n is the one written MAX_DELAY (4096) steps
earlier: delay length 0 behaves as a full-capacity delay, not as a
pass-through of the current input. -/
theorem C10_delay_zero_is_full_capacity (s : DrumSynthState)
    (ins : ℕ → ResStepIns)
    (hw : s.resonance_write_pos < MAX_DELAY)
    (hins : ∀ k, (ins k).ctrl.delay_samples = 0) :
    (∀ n, ((resRun s ins n).process_resonance (ins n).transient_output
        (ins n).snare_output (ins n).ctrl).state.resonance_read_pos =
        (resRun s ins n).resonance_write_pos) ∧
    (∀ n, MAX_DELAY ≤ n → readAt s ins n = writtenAt s ins (n - MAX_DELAY)) := by
  have hM : MAX_DELAY = 4096 := rfl
  constructor
  · intro n
    have hclamp : min (ins n).ctrl.delay_samples (MAX_DELAY - 1) = 0 := by
      rw [hins n]; rfl
    have hrp : ((resRun s ins n).process_resonance (ins n).transient_output
        (ins n).snare_output (ins n).ctrl).state.resonance_read_pos =
        ((resRun s ins n).resonance_write_pos + MAX_DELAY -
          min (ins n).ctrl.delay_samples (MAX_DELAY - 1)) % MAX_DELAY := rfl
    rw [hrp, hclamp, resRun_wpos s ins hw n, hM]
    omega
  · intro n hn
    have hclamp : min (ins n).ctrl.delay_samples (MAX_DELAY - 1) = 0 := by
      rw [hins n]; rfl
    have hread : readAt s ins n =
        (resRun s ins n).resonance_buffer
          (((resRun s ins n).resonance_write_pos + MAX_DELAY -
            min (ins n).ctrl.delay_samples (MAX_DELAY - 1)) % MAX_DELAY) := rfl
    rw [hread, hclamp, resRun_wpos s ins hw n]
    have hidx : ((s.resonance_write_pos + n) % MAX_DELAY + MAX_DELAY - 0) % MAX_DELAY =
        (s.resonance_write_pos + (n - MAX_DELAY)) % MAX_DELAY := by
      rw [hM] at hn ⊢
      omega
    rw [hidx]
    exact resRun_buf s ins hw (by rw [hM] at hn ⊢; omega) (by omega)

/-- Witness for C10: with delay length 0 the very first step computes a read
cursor equal to the write cursor. -/
theorem C10_witness :
    ((resRun DrumSynthState.default0 stream0 0).process_resonance
      (stream0 0).transient_output (stream0 0).snare_output
      (stream0 0).ctrl).state.resonance_read_pos =
    (resRun DrumSynthState.default0 stream0 0).resonance_write_pos :=
  (C10_delay_zero_is_full_capacity DrumSynthState.default0 stream0
    (by decide) (fun _ => rfl)).1 0

/-- Claim C8: both cursors stay strictly below the capacity across every
per-sample resonator step (for any delay-length input, which is clamped to at
most MAX_DELAY - 1) and across reset, the read cursor is computed from the
write cursor by the documented modular formula, and the invariant holds in the
initial (default) state; hence every buffer index used is in bounds. -/
theorem C8_cursors_in_bounds (s : DrumSynthState) (t sn : ℚ)
    (ins : ResonanceInputs) (h : cursorsInv s) :
    cursorsInv (s.process_resonance t sn ins).state ∧
    (s.process_resonance t sn ins).state.resonance_read_pos =
      (s.resonance_write_pos + MAX_DELAY - min ins.delay_samples (MAX_DELAY - 1)) %
        MAX_DELAY ∧
    min ins.delay_samples (MAX_DELAY - 1) ≤ MAX_DELAY - 1 ∧
    cursorsInv s.reset ∧
    cursorsInv DrumSynthState.default0 := by
  have hM : 0 < MAX_DELAY := by decide
  refine ⟨⟨?_, ?_⟩, rfl, min_le_right _ _, ⟨hM, hM⟩, ⟨hM, hM⟩⟩
  · show (s.resonance_write_pos + 1) % MAX_DELAY < MAX_DELAY
    exact Nat.mod_lt _ hM
  · show (s.resonance_write_pos + MAX_DELAY - min ins.delay_samples (MAX_DELAY - 1)) %
        MAX_DELAY < MAX_DELAY
    exact Nat.mod_lt _ hM

/-- Witness for C8 at the default state and concrete control inputs. -/
theorem C8_witness :
    cursorsInv (DrumSynthState.default0.process_resonance 0 0 insDelay1).state ∧
    cursorsInv DrumSynthState.default0 := by
  have h := C8_cursors_in_bounds DrumSynthState.default0 0 0 insDelay1 (by decide)
  exact ⟨h.1, h.2.2.2.2⟩

/-- Claim C7: for every sample, the frame written by one iteration of the
audio loop of DrumSynth::process consists of the same value on every output
channel, and that value is the sum of the impact excitation output and the
EQ-shaped resonator output, scaled by the decibel-to-linear master gain. -/
theorem C7_frame_is_mix_times_gain_on_every_channel (s : DrumSynthState)
    (ins : SampleInputs) (dbToGain : ℚ → ℚ) (channels : ℕ) :
    (s.processSample ins dbToGain channels).frame =
      List.replicate channels
        (((s.process_transient ins).2 +
          (((s.process_transient ins).1.process_snare_input ins).1.process_resonance
            (s.process_transient ins).2
            ((s.process_transient ins).1.process_snare_input ins).2 ins.res).output) *
         dbToGain ins.gain_db) := rfl

lemma unity_runList {α : Type} [Field α] :
    ∀ (xs : List α) (f : PeakEQ α), f.a0 = 1 → f.a1 = f.b1 → f.a2 = f.b2 →
      f.x1 = f.y1 → f.x2 = f.y2 → (f.runList xs).2 = xs := by
  intro xs
  induction xs with
  | nil => intro f _ _ _ _ _; rfl
  | cons x xs ih =>
    intro f h0 h1 h2 hx1 hx2
    have hout : (f.process x).2 = x := by
      show f.a0 * x + f.a1 * f.x1 + f.a2 * f.x2 - f.b1 * f.y1 - f.b2 * f.y2 = x
      rw [h0, h1, h2, hx1, hx2]
      ring
    show (f.process x).2 :: ((f.process x).1.runList xs).2 = x :: xs
    rw [hout]
    exact congrArg (x :: ·) (ih (f.process x).1 h0 h1 h2 hout.symm hx1)

lemma configure_gain_zero (f : PeakEQ ℝ) (freq q sr : ℝ)
    (hden : 1 + Real.sin (2 * Real.pi * freq / sr) / (2 * q) ≠ 0) :
    (f.configure freq 0 q sr).a0 = 1 ∧
    (f.configure freq 0 q sr).a1 = (f.configure freq 0 q sr).b1 ∧
    (f.configure freq 0 q sr).a2 = (f.configure freq 0 q sr).b2 := by
  unfold PeakEQ.configure
  simp only [zero_div, Real.rpow_zero, mul_one, div_one]
  exact ⟨div_self hden, by trivial, by trivial⟩

/-- Claim C5 (amended): for every frequency, every Q > 0 and every input
sequence such that the normalizing denominator 1 + alpha of the biquad
derivation is nonzero (equivalently sin omega is distinct from -2 Q), a
peaking EQ configured with gain_db = 0 and processed from zero history returns
each input unchanged: exact unity gain over real arithmetic. -/
theorem C5_zero_gain_is_identity (freq q sr : ℝ) (hq : 0 < q)
    (hden : 1 + Real.sin (2 * Real.pi * freq / sr) / (2 * q) ≠ 0) (xs : List ℝ) :
    ((PeakEQ.new.configure freq 0 q sr).runList xs).2 = xs := by
  obtain ⟨h0, h1, h2⟩ := configure_gain_zero PeakEQ.new freq q sr hden
  exact unity_runList xs _ h0 h1 h2 rfl rfl

/-- Witness for the amended C5 at frequency 0, Q 1, sample rate 1 on the
input list [1, 2]. -/
theorem C5_witness :
    ((PeakEQ.new.configure 0 0 1 1).runList [1, 2]).2 = [1, 2] :=
  C5_zero_gain_is_identity 0 1 1 one_pos
    (by norm_num [Real.sin_zero]) [1, 2]

/-- Counterexample to C5 as stated for every frequency and Q: at frequency 3,
sample rate 4 (omega three half pi) and Q one half, alpha is -1, the biquad
normalizing denominator 1 + alpha / A vanishes, and the gain_db = 0 filter
maps the input list [1] to [0], not to itself. -/
theorem C5_counterexample :
    ((PeakEQ.new.configure 3 0 (1/2) 4).runList [1]).2 ≠ [1] := by
  have hsin : Real.sin (2 * Real.pi * 3 / 4) = -1 := by
    have h34 : 2 * Real.pi * 3 / 4 = Real.pi + Real.pi / 2 := by ring
    rw [h34, Real.sin_add, Real.sin_pi, Real.cos_pi, Real.sin_pi_div_two,
      Real.cos_pi_div_two]
    ring
  have hval : ((PeakEQ.new.configure 3 0 (1/2) 4).runList [1]).2 = [0] := by
    simp only [PeakEQ.configure, PeakEQ.new, PeakEQ.runList, PeakEQ.process, hsin]
    norm_num
  rw [hval]
  simp
